import Mathlib

/-! SequenceNumber10

A shallow embedding of the class `ns3::SequenceNumber10` of
`src/lte/model/lte-rlc-sequence-number.h`: the 10-bit wrapping sequence number of the LTE RLC
layer, with its arithmetic and its comparison relative to a modulus base.

Machine integers are modelled explicitly.  A `uint16_t` is a natural number below `65536`.
An arithmetic expression over `uint16_t` operands is evaluated in `int` (integer promotion, with
an `int` of at least 32 bits, so that no intermediate result overflows), the built-in `%` is the
truncating remainder `cRem`, and storing an `int` into a `uint16_t` reduces it modulo `65536`
(`toUInt16`).  Member functions that modify the receiver return the new receiver.
-/

namespace ns3

/-! ## Machine arithmetic -/

/-- The built-in C++ remainder on `int`: the quotient is truncated towards zero, so the result
takes the sign of the dividend. -/
def cRem (x n : Int) : Int := Int.tmod x n

/-- The conversion of an `int` to `uint16_t`: the unique representative modulo `2^16`. -/
def toUInt16 (x : Int) : Nat := (x % 65536).toNat

/-- The conversion of a natural number to `uint32_t` (used by the cast in `operator++`). -/
def toUInt32 (x : Nat) : Nat := x % 4294967296

/-! ## Assertions and comparison results -/

/-- The failure raised by a violated assertion. -/
inductive Failure where
  | assertionFailed
  deriving DecidableEq, Repr

deriving instance DecidableEq for Except

/-- Modelled from the spec: `NS_ASSERT` is declared in `ns3/assert.h`, which is not among the
sources at hand.  The spec describes a violated assertion as a fatal invariant-violation error
that terminates the comparison; a satisfied assertion has no effect. -/
def NS_ASSERT (cond : Bool) : Except Failure Unit :=
  if cond then Except.ok () else Except.error Failure.assertionFailed

/-- The three values of `std::strong_ordering` that `operator<=>` returns. -/
inductive StrongOrdering where
  | less
  | equivalent
  | greater
  deriving DecidableEq, Repr

/-! ## The class -/

/-- The two private fields of the class, both of type `uint16_t`. -/
structure SequenceNumber10 where
  m_value : Nat
  m_modulusBase : Nat
  deriving DecidableEq, Repr

namespace SequenceNumber10

/-- `SequenceNumber10()`. -/
def ctorDefault : SequenceNumber10 :=
  { m_value := 0, m_modulusBase := 0 }

/-- `explicit SequenceNumber10(uint16_t value)`. -/
def ctor (value : Nat) : SequenceNumber10 :=
  { m_value := toUInt16 (cRem (value : Int) 1024), m_modulusBase := 0 }

/-- `SequenceNumber10(const SequenceNumber10& value)`. -/
def ctorCopy (value : SequenceNumber10) : SequenceNumber10 :=
  { m_value := value.m_value, m_modulusBase := value.m_modulusBase }

/-- `SequenceNumber10& operator=(uint16_t value)`; the result is the receiver after the call. -/
def operatorAssign (self : SequenceNumber10) (value : Nat) : SequenceNumber10 :=
  { self with m_value := toUInt16 (cRem (value : Int) 1024) }

/-- `uint16_t GetValue() const`. -/
def GetValue (self : SequenceNumber10) : Nat :=
  self.m_value

/-- `void SetModulusBase(SequenceNumber10 modulusBase)`; the result is the receiver after the
call. -/
def SetModulusBaseSeq (self modulusBase : SequenceNumber10) : SequenceNumber10 :=
  { self with m_modulusBase := modulusBase.m_value }

/-- `void SetModulusBase(uint16_t modulusBase)`; the result is the receiver after the call. -/
def SetModulusBase (self : SequenceNumber10) (modulusBase : Nat) : SequenceNumber10 :=
  { self with m_modulusBase := modulusBase }

/-- `SequenceNumber10 operator++(int)`: the first component is the returned object, the second
one the receiver after the call. -/
def operatorPostInc (self : SequenceNumber10) : SequenceNumber10 × SequenceNumber10 :=
  let retval := ctor self.m_value
  let self1 := { self with m_value := toUInt16 ((toUInt32 (toUInt32 self.m_value + 1) % 1024 : Nat) : Int) }
  let retval := retval.SetModulusBase self.m_modulusBase
  (retval, self1)

/-- `SequenceNumber10 operator+(uint16_t delta) const`. -/
def operatorAdd (self : SequenceNumber10) (delta : Nat) : SequenceNumber10 :=
  let ret := ctor (toUInt16 (cRem ((self.m_value : Int) + (delta : Int)) 1024))
  ret.SetModulusBase self.m_modulusBase

/-- `SequenceNumber10 operator-(uint16_t delta) const`. -/
def operatorSub (self : SequenceNumber10) (delta : Nat) : SequenceNumber10 :=
  let ret := ctor (toUInt16 (cRem ((self.m_value : Int) - (delta : Int)) 1024))
  ret.SetModulusBase self.m_modulusBase

/-- `uint16_t operator-(const SequenceNumber10& other) const`. -/
def operatorSubSeq (self other : SequenceNumber10) : Nat :=
  let diff := toUInt16 ((self.m_value : Int) - (other.m_value : Int))
  diff

/-- `constexpr std::strong_ordering operator<=>(const SequenceNumber10& other) const`. -/
def operatorCmp (self other : SequenceNumber10) : Except Failure StrongOrdering :=
  match NS_ASSERT (self.m_modulusBase == other.m_modulusBase) with
  | Except.error e => Except.error e
  | Except.ok () =>
    if self.m_value == other.m_value then
      Except.ok StrongOrdering.equivalent
    else
      let v1 := toUInt16 (cRem ((self.m_value : Int) - (self.m_modulusBase : Int)) 1024)
      let v2 := toUInt16 (cRem ((other.m_value : Int) - (other.m_modulusBase : Int)) 1024)
      if v1 > v2 then
        Except.ok StrongOrdering.greater
      else
        Except.ok StrongOrdering.less

/-- `constexpr bool operator==(const SequenceNumber10& other) const`. -/
def operatorEq (self other : SequenceNumber10) : Except Failure Bool :=
  match operatorCmp self other with
  | Except.error e => Except.error e
  | Except.ok r => Except.ok (r == StrongOrdering.equivalent)

/-- The comparison algorithm in the words of the specification: equal values are equivalent;
otherwise both values are re-centred on the modulus base with the mathematical (non-negative)
remainder modulo 1024, and the larger transformed value is the greater one. -/
def specCompare (a b : SequenceNumber10) : StrongOrdering :=
  if a.m_value = b.m_value then StrongOrdering.equivalent
  else if ((a.m_value : Int) - (a.m_modulusBase : Int)) % 1024
      > ((b.m_value : Int) - (a.m_modulusBase : Int)) % 1024 then StrongOrdering.greater
  else StrongOrdering.less

/-- A sequence number with the given value, built by the constructor and then set to the given
modulus base, as a caller does before comparing. -/
def withBase (value base : Nat) : SequenceNumber10 :=
  (ctor value).SetModulusBase base

/-- The transformed value that `operator<=>` computes for an operand (`v1` for the receiver,
`v2` for the other operand): the truncating remainder of value minus modulus base, stored in a
`uint16_t`. -/
def transformed (s : SequenceNumber10) : Nat :=
  toUInt16 (cRem ((s.m_value : Int) - (s.m_modulusBase : Int)) 1024)

/-- The invariant of the data model: the stored value is a number in [0, 1023]. -/
def ValueInRange (s : SequenceNumber10) : Prop :=
  s.m_value ≤ 1023

instance (s : SequenceNumber10) : Decidable (ValueInRange s) :=
  inferInstanceAs (Decidable (s.m_value ≤ 1023))

/-- The sequence numbers a caller can obtain through the public interface of the class: by the
three constructors, and as the receiver after, or the object returned by, each member function
that yields a sequence number.  Arguments of type `uint16_t` are below `65536`. -/
inductive Reachable : SequenceNumber10 → Prop where
  | ctorDefault : Reachable ctorDefault
  | ctor (n : Nat) : n < 65536 → Reachable (ctor n)
  | ctorCopy (s : SequenceNumber10) : Reachable s → Reachable (ctorCopy s)
  | operatorAssign (s : SequenceNumber10) (n : Nat) :
      Reachable s → n < 65536 → Reachable (operatorAssign s n)
  | SetModulusBase (s : SequenceNumber10) (b : Nat) :
      Reachable s → b < 65536 → Reachable (SetModulusBase s b)
  | SetModulusBaseSeq (s t : SequenceNumber10) :
      Reachable s → Reachable t → Reachable (SetModulusBaseSeq s t)
  | postIncReturned (s : SequenceNumber10) : Reachable s → Reachable (operatorPostInc s).1
  | postIncReceiver (s : SequenceNumber10) : Reachable s → Reachable (operatorPostInc s).2
  | operatorAdd (s : SequenceNumber10) (d : Nat) :
      Reachable s → d < 65536 → Reachable (operatorAdd s d)
  | operatorSub (s : SequenceNumber10) (d : Nat) :
      Reachable s → d < 65536 → Reachable (operatorSub s d)

end SequenceNumber10

/-! ## Lemmas on the machine arithmetic -/

theorem cRem_1024 (x : Int) :
    cRem x 1024 = if 0 ≤ x then x % 1024 else -((-x) % 1024) := by
  unfold cRem
  split
  · rename_i h
    exact Int.tmod_eq_emod h (by decide)
  · rename_i h
    have h1 : Int.tmod x 1024 = x - 1024 * Int.tdiv x 1024 := Int.tmod_def x 1024
    have h2 : Int.tdiv (-x) 1024 = -(Int.tdiv x 1024) := Int.neg_tdiv x 1024
    have h3 : Int.tdiv (-x) 1024 = (-x) / 1024 := Int.tdiv_eq_ediv (by omega) (by decide)
    omega

/-- The stored remainder of a difference of a value and a `uint16_t`: what `toUInt16` makes of
the truncating remainder. -/
theorem toUInt16_cRem_sub (v m : Nat) :
    toUInt16 (cRem ((v : Int) - (m : Int)) 1024)
      = if m ≤ v then (v - m) % 1024
        else if (m - v) % 1024 = 0 then 0 else 65536 - (m - v) % 1024 := by
  rw [cRem_1024]
  unfold toUInt16
  split_ifs <;> omega

theorem toUInt16_cRem_nat (n : Nat) : toUInt16 (cRem (n : Int) 1024) = n % 1024 := by
  rw [cRem_1024]
  unfold toUInt16
  split <;> omega

theorem toUInt16_natCast (n : Nat) : toUInt16 (n : Int) = n % 65536 := by
  unfold toUInt16
  omega

/-! ## Lemmas on the comparison -/

namespace SequenceNumber10

/-- With equal modulus bases the assertion passes and the comparison is the value test followed
by the test of the two stored remainders. -/
theorem operatorCmp_of_base_eq (a b : SequenceNumber10) (h : a.m_modulusBase = b.m_modulusBase) :
    operatorCmp a b = Except.ok
      (if a.m_value = b.m_value then StrongOrdering.equivalent
       else if toUInt16 (cRem ((a.m_value : Int) - (a.m_modulusBase : Int)) 1024)
            > toUInt16 (cRem ((b.m_value : Int) - (b.m_modulusBase : Int)) 1024)
         then StrongOrdering.greater else StrongOrdering.less) := by
  unfold operatorCmp NS_ASSERT
  simp only [h, beq_self_eq_true, if_true, beq_iff_eq]
  split_ifs <;> rfl

/-- With different modulus bases the assertion fails. -/
theorem operatorCmp_of_base_ne (a b : SequenceNumber10) (h : a.m_modulusBase ≠ b.m_modulusBase) :
    operatorCmp a b = Except.error Failure.assertionFailed := by
  unfold operatorCmp NS_ASSERT
  have hb : (a.m_modulusBase == b.m_modulusBase) = false := by simpa using h
  simp [hb]

/-- Two sequence numbers with the same fields are the same. -/
theorem eq_of_fields (x y : SequenceNumber10) (hv : x.m_value = y.m_value)
    (hm : x.m_modulusBase = y.m_modulusBase) : x = y := by
  cases x
  cases y
  simp_all

/-- The receiver after `operator++`: its value is the successor modulo 1024 for every stored
`uint16_t`, and its modulus base is untouched. -/
theorem operatorPostInc_receiver (s : SequenceNumber10) :
    (operatorPostInc s).2.m_value = (s.m_value + 1) % 1024
      ∧ (operatorPostInc s).2.m_modulusBase = s.m_modulusBase := by
  simp only [operatorPostInc, toUInt16_natCast, toUInt32, and_true]
  omega

/-- The object returned by `operator++`. -/
theorem operatorPostInc_returned (s : SequenceNumber10) :
    (operatorPostInc s).1.m_value = s.m_value % 1024
      ∧ (operatorPostInc s).1.m_modulusBase = s.m_modulusBase := by
  simp [operatorPostInc, SetModulusBase, ctor, toUInt16_cRem_nat]

theorem operatorAdd_fields (s : SequenceNumber10) (d : Nat) :
    (operatorAdd s d).m_value = (s.m_value + d) % 1024
      ∧ (operatorAdd s d).m_modulusBase = s.m_modulusBase := by
  have hc : (s.m_value : Int) + (d : Int) = ((s.m_value + d : Nat) : Int) := by push_cast; rfl
  simp only [operatorAdd, SetModulusBase, ctor, hc, toUInt16_cRem_nat, and_true]
  omega

theorem operatorSub_fields (s : SequenceNumber10) (d : Nat) :
    (operatorSub s d).m_value ≤ 1023
      ∧ (operatorSub s d).m_modulusBase = s.m_modulusBase := by
  simp only [operatorSub, SetModulusBase, ctor, toUInt16_cRem_nat, and_true]
  omega

/-- The comparison with equal modulus bases, in terms of the transformed values. -/
theorem operatorCmp_transformed (a b : SequenceNumber10)
    (h : a.m_modulusBase = b.m_modulusBase) :
    operatorCmp a b = Except.ok
      (if a.m_value = b.m_value then StrongOrdering.equivalent
       else if transformed a > transformed b then StrongOrdering.greater
       else StrongOrdering.less) :=
  operatorCmp_of_base_eq a b h

/-- For values and a base in [0, 1023], the stored remainders compare like the non-negative
remainders of value minus base. -/
theorem toUInt16_cRem_sub_gt_iff (va vb m : Nat) (ha : va ≤ 1023) (hb : vb ≤ 1023)
    (hm : m ≤ 1023) :
    toUInt16 (cRem ((va : Int) - (m : Int)) 1024) > toUInt16 (cRem ((vb : Int) - (m : Int)) 1024)
      ↔ (va + 1024 - m) % 1024 > (vb + 1024 - m) % 1024 := by
  rw [toUInt16_cRem_sub, toUInt16_cRem_sub]
  split_ifs <;> omega

/-- For a common modulus base, 10-bit values with the same transformed value are equal. -/
theorem transformed_injective (a b : SequenceNumber10) (ha : a.m_value ≤ 1023)
    (hb : b.m_value ≤ 1023) (h : a.m_modulusBase = b.m_modulusBase)
    (ht : transformed a = transformed b) : a.m_value = b.m_value := by
  unfold transformed at ht
  rw [h, toUInt16_cRem_sub, toUInt16_cRem_sub] at ht
  split_ifs at ht <;> omega

theorem operatorCmp_less_iff (a b : SequenceNumber10) (ha : a.m_value ≤ 1023)
    (hb : b.m_value ≤ 1023) (h : a.m_modulusBase = b.m_modulusBase) :
    operatorCmp a b = Except.ok StrongOrdering.less ↔ transformed a < transformed b := by
  rw [operatorCmp_transformed a b h]
  by_cases hv : a.m_value = b.m_value
  · have ht : transformed a = transformed b := by
      unfold transformed
      rw [hv, h]
    simp [hv, ht]
  · have hne : transformed a ≠ transformed b := fun ht => hv (transformed_injective a b ha hb h ht)
    simp only [hv, if_false]
    split_ifs with hgt
    · simp
      omega
    · simp
      omega

theorem operatorCmp_greater_iff (a b : SequenceNumber10)
    (h : a.m_modulusBase = b.m_modulusBase) :
    operatorCmp a b = Except.ok StrongOrdering.greater ↔ transformed b < transformed a := by
  rw [operatorCmp_transformed a b h]
  by_cases hv : a.m_value = b.m_value
  · have ht : transformed a = transformed b := by
      unfold transformed
      rw [hv, h]
    simp [hv, ht]
  · simp only [hv, if_false]
    split_ifs with hgt
    · simp
      omega
    · simp
      omega

theorem operatorCmp_equivalent_iff (a b : SequenceNumber10)
    (h : a.m_modulusBase = b.m_modulusBase) :
    operatorCmp a b = Except.ok StrongOrdering.equivalent ↔ a.m_value = b.m_value := by
  rw [operatorCmp_transformed a b h]
  by_cases hv : a.m_value = b.m_value
  · simp [hv]
  · simp only [hv, if_false, iff_false]
    split_ifs <;> simp

theorem withBase_value (v base : Nat) : (withBase v base).m_value = v % 1024 := by
  simp [withBase, SetModulusBase, ctor, toUInt16_cRem_nat]

theorem withBase_base (v base : Nat) : (withBase v base).m_modulusBase = base := by
  simp [withBase, SetModulusBase]

/-- The comparison of two offsets from a common base: the smaller offset is less. -/
theorem operatorCmp_offsets (b i j : Nat) (hb : b ≤ 1023) (hij : i < j) (hj : j ≤ 1023) :
    operatorCmp (withBase ((b + i) % 1024) b) (withBase ((b + j) % 1024) b)
        = Except.ok StrongOrdering.less
      ∧ operatorCmp (withBase ((b + j) % 1024) b) (withBase ((b + i) % 1024) b)
        = Except.ok StrongOrdering.greater := by
  rw [operatorCmp_of_base_eq _ _ (by simp [withBase_base]),
    operatorCmp_of_base_eq _ _ (by simp [withBase_base])]
  simp only [withBase_value, withBase_base, toUInt16_cRem_sub]
  constructor <;> split_ifs <;> first | rfl | omega

end SequenceNumber10

/-! ## The claims -/

namespace SequenceNumber10

/-- C1: for sequence numbers `a` and `b` with values in [0, 1023] and the same modulus base `m`
in [0, 1023], the three-way comparison as coded (promotion to `int`, truncating remainder,
narrowing to `uint16_t`) returns what the specified algorithm returns: equivalent for equal
values, otherwise greater when the non-negative remainder of `a.value - m` modulo 1024 exceeds
that of `b.value - m`, and less otherwise. -/
theorem operatorCmp_refines_specCompare (a b : SequenceNumber10) (m : Nat)
    (ha : a.m_value ≤ 1023) (hb : b.m_value ≤ 1023)
    (hma : a.m_modulusBase = m) (hmb : b.m_modulusBase = m) (hm : m ≤ 1023) :
    operatorCmp a b = Except.ok (specCompare a b) := by
  rw [operatorCmp_of_base_eq a b (hma.trans hmb.symm)]
  unfold specCompare
  simp only [hma, hmb, toUInt16_cRem_sub]
  congr 1
  split_ifs <;> first | rfl | omega

theorem operatorCmp_refines_specCompare_witness :
    operatorCmp { m_value := 0, m_modulusBase := 1020 } { m_value := 1021, m_modulusBase := 1020 }
      = Except.ok (specCompare { m_value := 0, m_modulusBase := 1020 }
          { m_value := 1021, m_modulusBase := 1020 }) :=
  operatorCmp_refines_specCompare _ _ 1020 (by decide) (by decide) rfl rfl (by decide)

/-- C2: for every base `b` in [0, 1023] and offsets `0 <= i < j <= 1023`, the sequence number
`(b + i) mod 1024` compares less than the sequence number `(b + j) mod 1024`, and the latter
compares greater than the former, after both are set to modulus base `b`; with base 1020 the
values 1021, 1022, 1023, 0, 1, 2 compare in strictly increasing order for every pair. -/
theorem operatorCmp_offsets_increasing (b i j : Nat) (hb : b ≤ 1023) (hij : i < j)
    (hj : j ≤ 1023) :
    (operatorCmp (withBase ((b + i) % 1024) b) (withBase ((b + j) % 1024) b)
        = Except.ok StrongOrdering.less
      ∧ operatorCmp (withBase ((b + j) % 1024) b) (withBase ((b + i) % 1024) b)
        = Except.ok StrongOrdering.greater)
    ∧ List.Pairwise
        (fun x y =>
          operatorCmp (withBase x 1020) (withBase y 1020) = Except.ok StrongOrdering.less
          ∧ operatorCmp (withBase y 1020) (withBase x 1020) = Except.ok StrongOrdering.greater)
        [1021, 1022, 1023, 0, 1, 2] :=
  ⟨operatorCmp_offsets b i j hb hij hj, by decide⟩

theorem operatorCmp_offsets_increasing_witness :
    (operatorCmp (withBase ((1020 + 3) % 1024) 1020) (withBase ((1020 + 4) % 1024) 1020)
        = Except.ok StrongOrdering.less
      ∧ operatorCmp (withBase ((1020 + 4) % 1024) 1020) (withBase ((1020 + 3) % 1024) 1020)
        = Except.ok StrongOrdering.greater)
    ∧ List.Pairwise
        (fun x y =>
          operatorCmp (withBase x 1020) (withBase y 1020) = Except.ok StrongOrdering.less
          ∧ operatorCmp (withBase y 1020) (withBase x 1020) = Except.ok StrongOrdering.greater)
        [1021, 1022, 1023, 0, 1, 2] :=
  operatorCmp_offsets_increasing 1020 3 4 (by decide) (by decide) (by decide)

/-- C3: for every base `b` in [0, 1023] and every `k` in [1, 511], the sequence number
`(b + k) mod 1024` compares greater than the sequence number `b` after both are set to modulus
base `b`. -/
theorem operatorCmp_ahead_greater (b k : Nat) (hb : b ≤ 1023) (hk1 : 1 ≤ k) (hk : k ≤ 511) :
    operatorCmp (withBase ((b + k) % 1024) b) (withBase b b)
      = Except.ok StrongOrdering.greater := by
  have h := (operatorCmp_offsets b 0 k hb (by omega) (by omega)).2
  have hb0 : (b + 0) % 1024 = b := by omega
  rw [hb0] at h
  exact h

theorem operatorCmp_ahead_greater_witness :
    operatorCmp (withBase ((1000 + 511) % 1024) 1000) (withBase 1000 1000)
      = Except.ok StrongOrdering.greater :=
  operatorCmp_ahead_greater 1000 511 (by decide) (by decide) (by decide)

/-- C4, as the claim states it, fails: with base 10 and `k = 1` the sequence number
`(10 - 1) mod 1024 = 9` does not compare less than the sequence number 10; it compares
greater. -/
theorem operatorCmp_behind_not_less :
    operatorCmp (withBase (((10 : Int) - 1) % 1024).toNat 10) (withBase 10 10)
        ≠ Except.ok StrongOrdering.less
      ∧ operatorCmp (withBase (((10 : Int) - 1) % 1024).toNat 10) (withBase 10 10)
        = Except.ok StrongOrdering.greater := by
  decide

/-- C4, amended: for every base `b` in [0, 1023] and every `k` in [1, 511], the sequence number
`(b - k) mod 1024` compares greater than the sequence number `b` (and `b` compares less than
it) after both are set to modulus base `b`: the base has the smallest transformed value. -/
theorem operatorCmp_behind_greater (b k : Nat) (hb : b ≤ 1023) (hk1 : 1 ≤ k) (hk : k ≤ 511) :
    operatorCmp (withBase (((b : Int) - (k : Int)) % 1024).toNat b) (withBase b b)
        = Except.ok StrongOrdering.greater
      ∧ operatorCmp (withBase b b) (withBase (((b : Int) - (k : Int)) % 1024).toNat b)
        = Except.ok StrongOrdering.less := by
  have hv : (((b : Int) - (k : Int)) % 1024).toNat = (b + (1024 - k)) % 1024 := by omega
  have h := operatorCmp_offsets b 0 (1024 - k) hb (by omega) (by omega)
  have hb0 : (b + 0) % 1024 = b := by omega
  rw [hb0] at h
  rw [hv]
  exact ⟨h.2, h.1⟩

theorem operatorCmp_behind_greater_witness :
    operatorCmp (withBase (((3 : Int) - (5 : Int)) % 1024).toNat 3) (withBase 3 3)
        = Except.ok StrongOrdering.greater
      ∧ operatorCmp (withBase 3 3) (withBase (((3 : Int) - (5 : Int)) % 1024).toNat 3)
        = Except.ok StrongOrdering.less :=
  operatorCmp_behind_greater 3 5 (by decide) (by decide) (by decide)

/-- C5: for every pair of sequence numbers `a` and `b`, the three-way comparison and the
equality test both fail with the assertion error exactly when the modulus bases differ, also
when the values are equal; with equal bases both return a result. -/
theorem operatorCmp_operatorEq_fail_iff (a b : SequenceNumber10) :
    (operatorCmp a b = Except.error Failure.assertionFailed
        ↔ a.m_modulusBase ≠ b.m_modulusBase)
      ∧ (operatorEq a b = Except.error Failure.assertionFailed
        ↔ a.m_modulusBase ≠ b.m_modulusBase)
      ∧ (a.m_value = b.m_value → a.m_modulusBase ≠ b.m_modulusBase →
          operatorCmp a b = Except.error Failure.assertionFailed
            ∧ operatorEq a b = Except.error Failure.assertionFailed)
      ∧ (a.m_modulusBase = b.m_modulusBase →
          (∃ r, operatorCmp a b = Except.ok r) ∧ (∃ t, operatorEq a b = Except.ok t)) := by
  by_cases h : a.m_modulusBase = b.m_modulusBase
  · have hc := operatorCmp_of_base_eq a b h
    refine ⟨?_, ?_, ?_, ?_⟩
    · rw [hc]
      simp [h]
    · unfold operatorEq
      rw [hc]
      simp [h]
    · intro _ hne
      exact absurd h hne
    · intro _
      refine ⟨⟨_, hc⟩, ?_⟩
      unfold operatorEq
      rw [hc]
      exact ⟨_, rfl⟩
  · have hc := operatorCmp_of_base_ne a b h
    have he : operatorEq a b = Except.error Failure.assertionFailed := by
      unfold operatorEq
      rw [hc]
    refine ⟨?_, ?_, ?_, ?_⟩
    · simp [hc, h]
    · simp [he, h]
    · intro _ _
      exact ⟨hc, he⟩
    · intro heq
      exact absurd heq h

/-- C6: for sequence numbers `a` and `b` with the same modulus base, the equality test returns
true exactly when the values are equal, and the three-way comparison returns equivalent exactly
when the values are equal. -/
theorem operatorEq_true_iff_value_eq (a b : SequenceNumber10)
    (h : a.m_modulusBase = b.m_modulusBase) :
    (operatorEq a b = Except.ok true ↔ a.m_value = b.m_value)
      ∧ (operatorCmp a b = Except.ok StrongOrdering.equivalent ↔ a.m_value = b.m_value) := by
  have hc := operatorCmp_of_base_eq a b h
  unfold operatorEq
  rw [hc]
  by_cases hv : a.m_value = b.m_value
  · simp [hv]
  · simp only [hv, if_false, iff_false]
    constructor <;> split_ifs <;> simp

theorem operatorEq_true_iff_value_eq_witness :
    (operatorEq (withBase 7 1020) (withBase 7 1020) = Except.ok true
        ↔ (withBase 7 1020).m_value = (withBase 7 1020).m_value)
      ∧ (operatorCmp (withBase 7 1020) (withBase 7 1020) = Except.ok StrongOrdering.equivalent
        ↔ (withBase 7 1020).m_value = (withBase 7 1020).m_value) :=
  operatorEq_true_iff_value_eq (withBase 7 1020) (withBase 7 1020) rfl

/-- C7: for every 16-bit unsigned integer `n`, the sequence number constructed from `n` has
value `n mod 1024` and modulus base 0, and the default-constructed sequence number has value 0
and modulus base 0; both constructors are total. -/
theorem ctor_value_base (n : Nat) (hn : n < 65536) :
    (ctor n).m_value = n % 1024 ∧ (ctor n).GetValue = n % 1024 ∧ (ctor n).m_modulusBase = 0
      ∧ ctorDefault.m_value = 0 ∧ ctorDefault.m_modulusBase = 0 := by
  have _ := hn
  simp [ctor, GetValue, ctorDefault, toUInt16_cRem_nat]

theorem ctor_value_base_witness :
    (ctor 65535).m_value = 65535 % 1024 ∧ (ctor 65535).GetValue = 65535 % 1024
      ∧ (ctor 65535).m_modulusBase = 0
      ∧ ctorDefault.m_value = 0 ∧ ctorDefault.m_modulusBase = 0 :=
  ctor_value_base 65535 (by decide)

/-- C8: for every sequence number `s` with value in [0, 1023] and every 16-bit unsigned delta
`d`, the value of `s - d` is the non-negative remainder of `s.value - d` modulo 1024, although
the code takes a possibly negative `int` remainder and narrows it to `uint16_t` before reducing
again; the sequence number 0 minus delta 1 has value 1023. -/
theorem operatorSub_value (s : SequenceNumber10) (d : Nat) (hs : s.m_value ≤ 1023)
    (hd : d < 65536) :
    ((operatorSub s d).m_value : Int) = ((s.m_value : Int) - (d : Int)) % 1024
      ∧ (operatorSub (ctor 0) 1).m_value = 1023 := by
  have _ := hs
  have _ := hd
  refine ⟨?_, by decide⟩
  simp only [operatorSub, SetModulusBase, ctor, toUInt16_cRem_nat, toUInt16_cRem_sub]
  split_ifs <;> omega

theorem operatorSub_value_witness :
    ((operatorSub (withBase 5 9) 65535).m_value : Int)
        = (((withBase 5 9).m_value : Int) - ((65535 : Nat) : Int)) % 1024
      ∧ (operatorSub (ctor 0) 1).m_value = 1023 :=
  operatorSub_value (withBase 5 9) 65535 (by decide) (by decide)

/-- C9: for every sequence number `s` with value in [0, 1023] and every 16-bit unsigned delta
`d`, the value of `s + d` is `(s.value + d) mod 1024`; the sum is formed in `int`, so a sum
above 65535 is not truncated to 16 bits first. -/
theorem operatorAdd_value (s : SequenceNumber10) (d : Nat) (hs : s.m_value ≤ 1023)
    (hd : d < 65536) :
    (operatorAdd s d).m_value = (s.m_value + d) % 1024 := by
  have _ := hs
  have _ := hd
  have hc : (s.m_value : Int) + (d : Int) = ((s.m_value + d : Nat) : Int) := by push_cast; rfl
  simp only [operatorAdd, SetModulusBase, ctor, hc, toUInt16_cRem_nat]
  omega

theorem operatorAdd_value_witness :
    (operatorAdd (withBase 1023 9) 65535).m_value = ((withBase 1023 9).m_value + 65535) % 1024 :=
  operatorAdd_value (withBase 1023 9) 65535 (by decide) (by decide)

/-- C10: for every sequence number `s` with value in [0, 1023] and every delta `d` in
[0, 1023], adding `d` and then subtracting `d` gives back `s`: the same value and the same
modulus base. -/
theorem operatorSub_operatorAdd_roundtrip (s : SequenceNumber10) (d : Nat)
    (hs : s.m_value ≤ 1023) (hd : d ≤ 1023) :
    (operatorSub (operatorAdd s d) d).m_value = s.m_value
      ∧ (operatorSub (operatorAdd s d) d).m_modulusBase = s.m_modulusBase
      ∧ operatorSub (operatorAdd s d) d = s := by
  have _ := hd
  have hc : (s.m_value : Int) + (d : Int) = ((s.m_value + d : Nat) : Int) := by push_cast; rfl
  have hv : (operatorSub (operatorAdd s d) d).m_value = s.m_value := by
    simp only [operatorSub, operatorAdd, SetModulusBase, ctor, hc, toUInt16_cRem_nat,
      toUInt16_cRem_sub]
    split_ifs <;> omega
  have hm : (operatorSub (operatorAdd s d) d).m_modulusBase = s.m_modulusBase := rfl
  exact ⟨hv, hm, eq_of_fields _ _ hv hm⟩

theorem operatorSub_operatorAdd_roundtrip_witness :
    (operatorSub (operatorAdd (withBase 1000 1020) 1023) 1023).m_value
        = (withBase 1000 1020).m_value
      ∧ (operatorSub (operatorAdd (withBase 1000 1020) 1023) 1023).m_modulusBase
        = (withBase 1000 1020).m_modulusBase
      ∧ operatorSub (operatorAdd (withBase 1000 1020) 1023) 1023 = withBase 1000 1020 :=
  operatorSub_operatorAdd_roundtrip (withBase 1000 1020) 1023 (by decide) (by decide)

/-- C11: for every sequence number `s` with value in [0, 1023], post-increment returns a
sequence number whose value is the value of `s` before the call, and leaves `s` with value
`(old value + 1) mod 1024` and an unchanged modulus base; the sequence number 1023 incremented
once has value 0. -/
theorem operatorPostInc_spec (s : SequenceNumber10) (hs : s.m_value ≤ 1023) :
    (operatorPostInc s).1.m_value = s.m_value
      ∧ (operatorPostInc s).2.m_value = (s.m_value + 1) % 1024
      ∧ (operatorPostInc s).2.m_modulusBase = s.m_modulusBase
      ∧ (operatorPostInc (ctor 1023)).2.m_value = 0 := by
  have h1 := (operatorPostInc_returned s).1
  have h2 := operatorPostInc_receiver s
  refine ⟨?_, h2.1, h2.2, by decide⟩
  rw [h1]
  omega

theorem operatorPostInc_spec_witness :
    (operatorPostInc (withBase 1023 7)).1.m_value = (withBase 1023 7).m_value
      ∧ (operatorPostInc (withBase 1023 7)).2.m_value = ((withBase 1023 7).m_value + 1) % 1024
      ∧ (operatorPostInc (withBase 1023 7)).2.m_modulusBase = (withBase 1023 7).m_modulusBase
      ∧ (operatorPostInc (ctor 1023)).2.m_value = 0 :=
  operatorPostInc_spec (withBase 1023 7) (by decide)

/-- C12: for every pair of sequence numbers `a` and `b`, the subtraction `a - b` of two sequence
numbers returns `a.value - b.value` reduced modulo `2^16`, whatever the two modulus bases are
and with no reduction modulo 1024: 5 - 3 is 2, and 2 - 5 is 65533, a number outside
[0, 1023]. -/
theorem operatorSubSeq_raw (a b : SequenceNumber10) :
    ((operatorSubSeq a b : Nat) : Int) = ((a.m_value : Int) - (b.m_value : Int)) % 65536
      ∧ (∀ m n : Nat,
          operatorSubSeq (a.SetModulusBase m) (b.SetModulusBase n) = operatorSubSeq a b)
      ∧ operatorSubSeq (ctor 5) (ctor 3) = 2
      ∧ operatorSubSeq (ctor 2) (ctor 5) = 65533
      ∧ ¬ operatorSubSeq (ctor 2) (ctor 5) ≤ 1023 := by
  refine ⟨?_, fun _ _ => rfl, by decide, by decide, by decide⟩
  simp only [operatorSubSeq, toUInt16]
  omega

/-- C13: for every sequence number `s` and every 16-bit unsigned delta `d`, the sequence numbers
returned by post-increment, by adding `d` and by subtracting `d` carry the modulus base that `s`
had before the operation, not the default 0 of the constructor. -/
theorem arithmetic_keeps_modulusBase (s : SequenceNumber10) (d : Nat) (hd : d < 65536) :
    (operatorPostInc s).1.m_modulusBase = s.m_modulusBase
      ∧ (operatorAdd s d).m_modulusBase = s.m_modulusBase
      ∧ (operatorSub s d).m_modulusBase = s.m_modulusBase := by
  have _ := hd
  exact ⟨rfl, rfl, rfl⟩

theorem arithmetic_keeps_modulusBase_witness :
    (operatorPostInc (withBase 3 1020)).1.m_modulusBase = (withBase 3 1020).m_modulusBase
      ∧ (operatorAdd (withBase 3 1020) 65535).m_modulusBase = (withBase 3 1020).m_modulusBase
      ∧ (operatorSub (withBase 3 1020) 65535).m_modulusBase = (withBase 3 1020).m_modulusBase :=
  arithmetic_keeps_modulusBase (withBase 3 1020) 65535 (by decide)

/-- C14, as the claim states it, fails: the overload of `SetModulusBase` taking a raw integer
stores 1024 as it is, so the modulus base is neither `1024 mod 1024 = 0` nor in [0, 1023]. -/
theorem SetModulusBase_not_reduced :
    (SetModulusBase (ctor 5) 1024).m_modulusBase ≠ 1024 % 1024
      ∧ (SetModulusBase (ctor 5) 1024).m_modulusBase = 1024
      ∧ ¬ (SetModulusBase (ctor 5) 1024).m_modulusBase ≤ 1023 := by
  decide

/-- C14, amended: for every sequence number `s` and every 16-bit unsigned integer `b`, both
overloads of `SetModulusBase` leave the value of `s` unchanged; the overload taking a raw
integer overwrites the modulus base with `b` itself, which is `b mod 1024` exactly when
`b <= 1023`; the overload taking a sequence number overwrites it with the value of that
sequence number, which is `b mod 1024` for the sequence number constructed from `b`.  Hence
the modulus base is in [0, 1023] after the second overload applied to a constructed sequence
number, and after the first one when `b <= 1023`. -/
theorem SetModulusBase_spec (s : SequenceNumber10) (b : Nat) (hb : b < 65536) :
    (SetModulusBase s b).m_value = s.m_value
      ∧ (SetModulusBase s b).m_modulusBase = b
      ∧ ((SetModulusBase s b).m_modulusBase = b % 1024 ↔ b ≤ 1023)
      ∧ ((SetModulusBase s b).m_modulusBase ≤ 1023 ↔ b ≤ 1023)
      ∧ (∀ t : SequenceNumber10, (SetModulusBaseSeq s t).m_value = s.m_value
          ∧ (SetModulusBaseSeq s t).m_modulusBase = t.m_value)
      ∧ (SetModulusBaseSeq s (ctor b)).m_modulusBase = b % 1024
      ∧ (SetModulusBaseSeq s (ctor b)).m_modulusBase ≤ 1023 := by
  have _ := hb
  have hc : (SetModulusBaseSeq s (ctor b)).m_modulusBase = b % 1024 := by
    simp [SetModulusBaseSeq, ctor, toUInt16_cRem_nat]
  refine ⟨rfl, rfl, ?_, Iff.rfl, fun _ => ⟨rfl, rfl⟩, hc, ?_⟩
  · show b = b % 1024 ↔ b ≤ 1023
    omega
  · rw [hc]
    omega

theorem SetModulusBase_spec_witness :
    (SetModulusBase (ctor 5) 1020).m_value = (ctor 5).m_value
      ∧ (SetModulusBase (ctor 5) 1020).m_modulusBase = 1020
      ∧ ((SetModulusBase (ctor 5) 1020).m_modulusBase = 1020 % 1024 ↔ 1020 ≤ 1023)
      ∧ ((SetModulusBase (ctor 5) 1020).m_modulusBase ≤ 1023 ↔ 1020 ≤ 1023)
      ∧ (∀ t : SequenceNumber10, (SetModulusBaseSeq (ctor 5) t).m_value = (ctor 5).m_value
          ∧ (SetModulusBaseSeq (ctor 5) t).m_modulusBase = t.m_value)
      ∧ (SetModulusBaseSeq (ctor 5) (ctor 1020)).m_modulusBase = 1020 % 1024
      ∧ (SetModulusBaseSeq (ctor 5) (ctor 1020)).m_modulusBase ≤ 1023 :=
  SetModulusBase_spec (ctor 5) 1020 (by decide)

/-- C15: for every sequence number `s` and every 16-bit unsigned integer `n`, assigning `n` to
`s` sets the value of `s` to `n mod 1024` and leaves its modulus base unchanged. -/
theorem operatorAssign_spec (s : SequenceNumber10) (n : Nat) (hn : n < 65536) :
    (operatorAssign s n).m_value = n % 1024
      ∧ (operatorAssign s n).m_modulusBase = s.m_modulusBase := by
  have _ := hn
  simp [operatorAssign, toUInt16_cRem_nat]

theorem operatorAssign_spec_witness :
    (operatorAssign (withBase 3 1020) 65535).m_value = 65535 % 1024
      ∧ (operatorAssign (withBase 3 1020) 65535).m_modulusBase
        = (withBase 3 1020).m_modulusBase :=
  operatorAssign_spec (withBase 3 1020) 65535 (by decide)

/-- C16: the predicate that the value is in [0, 1023] is an invariant of the type: it holds
after default construction, after construction from any raw integer and after a copy, raw
assignment and both overloads of `SetModulusBase` keep it on the receiver, post-increment
establishes it on the returned object and on the receiver, adding and subtracting a delta
establish it on the returned object; so `GetValue` of a sequence number obtained through the
interface is never outside [0, 1023]. -/
theorem valueInRange_invariant :
    ValueInRange ctorDefault
      ∧ (∀ n : Nat, ValueInRange (ctor n))
      ∧ (∀ s : SequenceNumber10, ValueInRange s → ValueInRange (ctorCopy s))
      ∧ (∀ (s : SequenceNumber10) (n : Nat), ValueInRange (operatorAssign s n))
      ∧ (∀ (s : SequenceNumber10) (b : Nat), ValueInRange s → ValueInRange (SetModulusBase s b))
      ∧ (∀ s t : SequenceNumber10, ValueInRange s → ValueInRange (SetModulusBaseSeq s t))
      ∧ (∀ s : SequenceNumber10,
          ValueInRange (operatorPostInc s).1 ∧ ValueInRange (operatorPostInc s).2)
      ∧ (∀ (s : SequenceNumber10) (d : Nat), ValueInRange (operatorAdd s d))
      ∧ (∀ (s : SequenceNumber10) (d : Nat), ValueInRange (operatorSub s d))
      ∧ (∀ s : SequenceNumber10, Reachable s → s.GetValue ≤ 1023) := by
  have hctor : ∀ n : Nat, ValueInRange (ctor n) := by
    intro n
    simp only [ValueInRange, ctor, toUInt16_cRem_nat]
    omega
  have hassign : ∀ (s : SequenceNumber10) (n : Nat), ValueInRange (operatorAssign s n) := by
    intro s n
    simp only [ValueInRange, operatorAssign, toUInt16_cRem_nat]
    omega
  have hinc : ∀ s : SequenceNumber10,
      ValueInRange (operatorPostInc s).1 ∧ ValueInRange (operatorPostInc s).2 := by
    intro s
    have h1 := (operatorPostInc_returned s).1
    have h2 := (operatorPostInc_receiver s).1
    unfold ValueInRange
    omega
  have hadd : ∀ (s : SequenceNumber10) (d : Nat), ValueInRange (operatorAdd s d) := by
    intro s d
    have h := (operatorAdd_fields s d).1
    unfold ValueInRange
    omega
  have hsub : ∀ (s : SequenceNumber10) (d : Nat), ValueInRange (operatorSub s d) :=
    fun s d => (operatorSub_fields s d).1
  refine ⟨by decide, hctor, fun _ h => h, hassign, fun _ _ h => h, fun _ _ h => h, hinc,
    hadd, hsub, ?_⟩
  intro s hs
  show ValueInRange s
  induction hs with
  | ctorDefault => decide
  | ctor n _ => exact hctor n
  | ctorCopy s _ ih => exact ih
  | operatorAssign s n _ _ _ => exact hassign s n
  | SetModulusBase s b _ _ ih => exact ih
  | SetModulusBaseSeq s t _ _ ih _ => exact ih
  | postIncReturned s _ _ => exact (hinc s).1
  | postIncReceiver s _ _ => exact (hinc s).2
  | operatorAdd s d _ _ _ => exact hadd s d
  | operatorSub s d _ _ _ => exact hsub s d

/-- C17: for sequence numbers `a` and `b` with values in [0, 1023] and the same modulus base,
the comparison is antisymmetric: `a <=> b` is less exactly when `b <=> a` is greater (and
greater exactly when `b <=> a` is less), and `a <=> b` is equivalent exactly when `b <=> a` is;
for distinct values the two transformed values `v1` and `v2` differ, so the final less branch
is never reached with `v1 = v2`. -/
theorem operatorCmp_antisymmetric (a b : SequenceNumber10) (ha : a.m_value ≤ 1023)
    (hb : b.m_value ≤ 1023) (h : a.m_modulusBase = b.m_modulusBase) :
    (operatorCmp a b = Except.ok StrongOrdering.less
        ↔ operatorCmp b a = Except.ok StrongOrdering.greater)
      ∧ (operatorCmp a b = Except.ok StrongOrdering.greater
        ↔ operatorCmp b a = Except.ok StrongOrdering.less)
      ∧ (operatorCmp a b = Except.ok StrongOrdering.equivalent
        ↔ operatorCmp b a = Except.ok StrongOrdering.equivalent)
      ∧ (a.m_value ≠ b.m_value →
          toUInt16 (cRem ((a.m_value : Int) - (a.m_modulusBase : Int)) 1024)
            ≠ toUInt16 (cRem ((b.m_value : Int) - (b.m_modulusBase : Int)) 1024)) := by
  refine ⟨?_, ?_, ?_, ?_⟩
  · rw [operatorCmp_less_iff a b ha hb h, operatorCmp_greater_iff b a h.symm]
  · rw [operatorCmp_greater_iff a b h, operatorCmp_less_iff b a hb ha h.symm]
  · rw [operatorCmp_equivalent_iff a b h, operatorCmp_equivalent_iff b a h.symm]
    exact eq_comm
  · intro hne ht
    exact hne (transformed_injective a b ha hb h ht)

theorem operatorCmp_antisymmetric_witness :
    (operatorCmp (withBase 2 1020) (withBase 1021 1020) = Except.ok StrongOrdering.less
        ↔ operatorCmp (withBase 1021 1020) (withBase 2 1020) = Except.ok StrongOrdering.greater)
      ∧ (operatorCmp (withBase 2 1020) (withBase 1021 1020) = Except.ok StrongOrdering.greater
        ↔ operatorCmp (withBase 1021 1020) (withBase 2 1020) = Except.ok StrongOrdering.less)
      ∧ (operatorCmp (withBase 2 1020) (withBase 1021 1020)
          = Except.ok StrongOrdering.equivalent
        ↔ operatorCmp (withBase 1021 1020) (withBase 2 1020)
          = Except.ok StrongOrdering.equivalent)
      ∧ ((withBase 2 1020).m_value ≠ (withBase 1021 1020).m_value →
          toUInt16 (cRem (((withBase 2 1020).m_value : Int)
              - ((withBase 2 1020).m_modulusBase : Int)) 1024)
            ≠ toUInt16 (cRem (((withBase 1021 1020).m_value : Int)
              - ((withBase 1021 1020).m_modulusBase : Int)) 1024)) :=
  operatorCmp_antisymmetric (withBase 2 1020) (withBase 1021 1020) (by decide) (by decide) rfl

/-- C18: for sequence numbers `a`, `b`, `c` with values in [0, 1023] that carry the same modulus
base, the comparison is transitive: if `a <=> b` is less and `b <=> c` is less then `a <=> c`
is less; with irreflexivity, asymmetry and totality on distinct values this makes the
comparison a strict total order on the 1024 values for a fixed base. -/
theorem operatorCmp_transitive (a b c : SequenceNumber10) (ha : a.m_value ≤ 1023)
    (hb : b.m_value ≤ 1023) (hc : c.m_value ≤ 1023)
    (hab : a.m_modulusBase = b.m_modulusBase) (hbc : b.m_modulusBase = c.m_modulusBase) :
    (operatorCmp a b = Except.ok StrongOrdering.less →
        operatorCmp b c = Except.ok StrongOrdering.less →
        operatorCmp a c = Except.ok StrongOrdering.less)
      ∧ operatorCmp a a ≠ Except.ok StrongOrdering.less
      ∧ (operatorCmp a b = Except.ok StrongOrdering.less →
          operatorCmp b a ≠ Except.ok StrongOrdering.less)
      ∧ (a.m_value ≠ b.m_value →
          operatorCmp a b = Except.ok StrongOrdering.less
            ∨ operatorCmp b a = Except.ok StrongOrdering.less) := by
  refine ⟨?_, ?_, ?_, ?_⟩
  · rw [operatorCmp_less_iff a b ha hb hab, operatorCmp_less_iff b c hb hc hbc,
      operatorCmp_less_iff a c ha hc (hab.trans hbc)]
    exact fun h1 h2 => Nat.lt_trans h1 h2
  · rw [Ne, operatorCmp_less_iff a a ha ha rfl]
    exact Nat.lt_irrefl _
  · rw [Ne, operatorCmp_less_iff a b ha hb hab, operatorCmp_less_iff b a hb ha hab.symm]
    exact fun h1 h2 => Nat.lt_asymm h1 h2
  · intro hne
    rw [operatorCmp_less_iff a b ha hb hab, operatorCmp_less_iff b a hb ha hab.symm]
    have ht : transformed a ≠ transformed b :=
      fun ht => hne (transformed_injective a b ha hb hab ht)
    omega

theorem operatorCmp_transitive_witness :
    (operatorCmp (withBase 1021 1020) (withBase 1023 1020) = Except.ok StrongOrdering.less →
        operatorCmp (withBase 1023 1020) (withBase 2 1020) = Except.ok StrongOrdering.less →
        operatorCmp (withBase 1021 1020) (withBase 2 1020) = Except.ok StrongOrdering.less)
      ∧ operatorCmp (withBase 1021 1020) (withBase 1021 1020) ≠ Except.ok StrongOrdering.less
      ∧ (operatorCmp (withBase 1021 1020) (withBase 1023 1020) = Except.ok StrongOrdering.less →
          operatorCmp (withBase 1023 1020) (withBase 1021 1020)
            ≠ Except.ok StrongOrdering.less)
      ∧ ((withBase 1021 1020).m_value ≠ (withBase 1023 1020).m_value →
          operatorCmp (withBase 1021 1020) (withBase 1023 1020) = Except.ok StrongOrdering.less
            ∨ operatorCmp (withBase 1023 1020) (withBase 1021 1020)
              = Except.ok StrongOrdering.less) :=
  operatorCmp_transitive (withBase 1021 1020) (withBase 1023 1020) (withBase 2 1020)
    (by decide) (by decide) (by decide) rfl rfl

/-- C19: the circular ordering depends only on the offsets from the base: for sequence numbers
`a` and `b` with values in [0, 1023] and the same modulus base `m` in [0, 1023], and every
16-bit unsigned delta `d`, comparing `a + d` with `b + d` after both are set to modulus base
`(m + d) mod 1024` gives the same result as comparing `a` with `b`. -/
theorem operatorCmp_shift_invariant (a b : SequenceNumber10) (m d : Nat)
    (ha : a.m_value ≤ 1023) (hb : b.m_value ≤ 1023)
    (hma : a.m_modulusBase = m) (hmb : b.m_modulusBase = m) (hm : m ≤ 1023)
    (hd : d < 65536) :
    operatorCmp ((operatorAdd a d).SetModulusBase ((m + d) % 1024))
        ((operatorAdd b d).SetModulusBase ((m + d) % 1024))
      = operatorCmp a b := by
  have _ := hd
  have hva : ((operatorAdd a d).SetModulusBase ((m + d) % 1024)).m_value
      = (a.m_value + d) % 1024 := (operatorAdd_fields a d).1
  have hvb : ((operatorAdd b d).SetModulusBase ((m + d) % 1024)).m_value
      = (b.m_value + d) % 1024 := (operatorAdd_fields b d).1
  have hba : ((operatorAdd a d).SetModulusBase ((m + d) % 1024)).m_modulusBase
      = (m + d) % 1024 := rfl
  have hbb : ((operatorAdd b d).SetModulusBase ((m + d) % 1024)).m_modulusBase
      = (m + d) % 1024 := rfl
  rw [operatorCmp_of_base_eq _ _ (hba.trans hbb.symm),
    operatorCmp_of_base_eq a b (hma.trans hmb.symm)]
  simp only [hva, hvb, hba, hbb, hma, hmb]
  have hcond : (a.m_value + d) % 1024 = (b.m_value + d) % 1024 ↔ a.m_value = b.m_value := by
    omega
  have ka : ((a.m_value + d) % 1024 + 1024 - (m + d) % 1024) % 1024
      = (a.m_value + 1024 - m) % 1024 := by omega
  have kb : ((b.m_value + d) % 1024 + 1024 - (m + d) % 1024) % 1024
      = (b.m_value + 1024 - m) % 1024 := by omega
  have hgt :
      toUInt16 (cRem ((((a.m_value + d) % 1024 : Nat) : Int) - (((m + d) % 1024 : Nat) : Int)) 1024)
          > toUInt16 (cRem ((((b.m_value + d) % 1024 : Nat) : Int)
              - (((m + d) % 1024 : Nat) : Int)) 1024)
        ↔ toUInt16 (cRem ((a.m_value : Int) - (m : Int)) 1024)
          > toUInt16 (cRem ((b.m_value : Int) - (m : Int)) 1024) := by
    rw [toUInt16_cRem_sub_gt_iff _ _ _ (by omega) (by omega) (by omega),
      toUInt16_cRem_sub_gt_iff _ _ _ ha hb hm, ka, kb]
  simp only [hcond, hgt]

theorem operatorCmp_shift_invariant_witness :
    operatorCmp ((operatorAdd (withBase 1023 1020) 65535).SetModulusBase ((1020 + 65535) % 1024))
        ((operatorAdd (withBase 2 1020) 65535).SetModulusBase ((1020 + 65535) % 1024))
      = operatorCmp (withBase 1023 1020) (withBase 2 1020) :=
  operatorCmp_shift_invariant (withBase 1023 1020) (withBase 2 1020) 1020 65535
    (by decide) (by decide) rfl rfl (by decide) (by decide)

/-- C20: for every sequence number `s` with value in [0, 1023] and every delta `d` in
[0, 1023], the subtraction `(s + d) - s` of two sequence numbers equals `d` exactly when
`s.value + d <= 1023`; when `s.value + d >= 1024` it equals `d + 64512`, which is congruent
to `d` modulo 1024. -/
theorem operatorSubSeq_operatorAdd (s : SequenceNumber10) (d : Nat) (hs : s.m_value ≤ 1023)
    (hd : d ≤ 1023) :
    (operatorSubSeq (operatorAdd s d) s = d ↔ s.m_value + d ≤ 1023)
      ∧ (1024 ≤ s.m_value + d →
          operatorSubSeq (operatorAdd s d) s = d + 64512
            ∧ operatorSubSeq (operatorAdd s d) s % 1024 = d % 1024) := by
  have hv := (operatorAdd_fields s d).1
  have hr : operatorSubSeq (operatorAdd s d) s
      = ((((operatorAdd s d).m_value : Int) - (s.m_value : Int)) % 65536).toNat := rfl
  rw [hr, hv]
  refine ⟨?_, ?_⟩
  · omega
  · intro h
    omega

theorem operatorSubSeq_operatorAdd_witness :
    (operatorSubSeq (operatorAdd (ctor 1000) 100) (ctor 1000) = 100
        ↔ (ctor 1000).m_value + 100 ≤ 1023)
      ∧ (1024 ≤ (ctor 1000).m_value + 100 →
          operatorSubSeq (operatorAdd (ctor 1000) 100) (ctor 1000) = 100 + 64512
            ∧ operatorSubSeq (operatorAdd (ctor 1000) 100) (ctor 1000) % 1024 = 100 % 1024) :=
  operatorSubSeq_operatorAdd (ctor 1000) 100 (by decide) (by decide)

end SequenceNumber10

end ns3
